import Mathlib

/-!
# Verification of the expense tracker (`src/p1.py`)

Shallow embedding of the single-file Python expense tracker:
the CSV record store (`initialize_file`, `add_expense`, the inlined
`csv.DictReader` reads), the aggregation loops (`analyze_expense`,
`monthly_bar_chart`, and the filtered loops of `budget_alert` and
`export_report`), and the two file sinks.

Modelling choices, uniform throughout:
* Python `float` values are modelled as exact rationals (`ℚ`).  The spec
  itself asks for exactness where floating point is exact, and every claim
  is stated over numeric values, never over binary rounding.
* `float(text)` is modelled by `parseFloat`, which implements the decimal
  grammar of Python float literals (optional sign, digits with an optional
  decimal point, optional exponent); the `inf`/`nan` words, embedded
  underscores and surrounding whitespace are outside the model.
* `str(float)` (what `csv.writer` emits for the amount column) is modelled
  by `floatToString`, a value-faithful decimal printer: it prints a decimal
  numeral (sign, integer part, `'.'`, fraction digits) whose value is
  exactly the input.  `parseFloat (floatToString q) = some q` is proved for
  every `q` in the range of `parseFloat`, mirroring Python's guarantee that
  `float(str(x)) == x`.
* A CSV file is a list of rows, each row a list of field strings; the first
  row is the header.  `csv.DictReader` field access `row[name]` is
  `dictReaderGet`: positional lookup of the header index of `name`, giving
  `none` (Python `None`, the default `restval`) when the row is too short,
  and ignoring trailing extra fields.
* Console output of `budget_alert` is reified as a list of `OutEvent`s, one
  per `print` the function executes after the budget has been read.
-/

/-! ## Decimal digits: values and characters -/

/-- Numeric value of a decimal digit character (`'0'` ↦ 0, …, `'9'` ↦ 9). -/
def charDigitVal (c : Char) : ℕ := c.toNat - 48

/-- The decimal digit character for `d ≤ 9` (callers keep `d < 10`). -/
def digitCharOf (d : ℕ) : Char :=
  if d = 0 then '0' else if d = 1 then '1' else if d = 2 then '2'
  else if d = 3 then '3' else if d = 4 then '4' else if d = 5 then '5'
  else if d = 6 then '6' else if d = 7 then '7' else if d = 8 then '8' else '9'

/-- Big-endian value of a list of digit characters
(`charsVal ['1','5'] = 15`). -/
def charsVal (l : List Char) : ℕ := l.foldl (fun a c => 10 * a + charDigitVal c) 0

/-- Split a character list into its maximal leading run of decimal digits
and the rest. -/
def takeDigits : List Char → List Char × List Char
  | [] => ([], [])
  | c :: cs =>
    if c.isDigit then
      let p := takeDigits cs
      (c :: p.1, p.2)
    else ([], c :: cs)

/-! ## `float(text)`: the Python float-literal grammar -/

/-- Consume one optional leading sign; `true` means negative. -/
def parseSign (l : List Char) : Bool × List Char :=
  match l with
  | [] => (false, [])
  | c :: cs => if c = '-' then (true, cs) else if c = '+' then (false, cs) else (false, c :: cs)

/-- The value denoted by parsed float components: sign, mantissa digits as
an integer `d`, number of fraction digits `f`, exponent sign and value.
`assembleFloat neg d f eneg e = ±(d / 10^f) · 10^(±e)`. -/
def assembleFloat (neg : Bool) (d f : ℕ) (eneg : Bool) (e : ℕ) : ℚ :=
  let mag : ℚ := if eneg then (d : ℚ) / 10 ^ (f + e) else (d : ℚ) * 10 ^ e / 10 ^ f
  if neg then -mag else mag

/-- Parse the exponent part after the `e`/`E` marker. -/
def parseExpPart (neg : Bool) (d f : ℕ) (r : List Char) : Option (Bool × ℕ × ℕ × Bool × ℕ) :=
  let se := parseSign r
  let te := takeDigits se.2
  if te.1.isEmpty then none
  else if te.2.isEmpty then some (neg, d, f, se.1, charsVal te.1) else none

/-- After the mantissa: end of input, or an exponent introduced by `e`/`E`. -/
def parseAfterMant (neg : Bool) (d f : ℕ) (r : List Char) : Option (Bool × ℕ × ℕ × Bool × ℕ) :=
  match r with
  | [] => some (neg, d, f, false, 0)
  | c :: r2 => if c = 'e' ∨ c = 'E' then parseExpPart neg d f r2 else none

/-- Parse a full Python float literal into its components, requiring at
least one mantissa digit and consuming the whole input. -/
def parseFloatAux (l : List Char) : Option (Bool × ℕ × ℕ × Bool × ℕ) :=
  let s1 := parseSign l
  let t1 := takeDigits s1.2
  match t1.2 with
  | [] => if t1.1.isEmpty then none else some (s1.1, charsVal t1.1, 0, false, 0)
  | c :: l3 =>
    if c = '.' then
      let t2 := takeDigits l3
      if t1.1.isEmpty ∧ t2.1.isEmpty then none
      else parseAfterMant s1.1 (charsVal (t1.1 ++ t2.1)) t2.1.length t2.2
    else if t1.1.isEmpty then none
    else parseAfterMant s1.1 (charsVal t1.1) 0 (c :: l3)

/-- Model of Python `float(s)`: `some` of the denoted rational on the
decimal float-literal grammar, `none` (a `ValueError`) otherwise. -/
def parseFloat (s : String) : Option ℚ :=
  (parseFloatAux s.data).map fun t => assembleFloat t.1 t.2.1 t.2.2.1 t.2.2.2.1 t.2.2.2.2

/-! ## `str(float)`: the value-faithful decimal printer -/

/-- Big-endian decimal digit characters of `n`, `"0"` for zero. -/
def natToChars (n : ℕ) : List Char :=
  if n = 0 then ['0'] else ((Nat.digits 10 n).reverse).map digitCharOf

/-- Exactly `k` decimal digit characters printing `n % 10^k`, with leading
zeros (the fraction part of a decimal expansion). -/
def padChars : ℕ → ℕ → List Char
  | 0, _ => []
  | k + 1, n => padChars k (n / 10) ++ [digitCharOf (n % 10)]

/-- Model of Python `str(x)` for a float `x`, as `csv.writer` stores the
amount column: a decimal numeral with a `'.'` and at least one fraction
digit (`100 ↦ "100.0"`), exactly denoting the value whenever the
denominator divides a power of ten (true of every parsed float). -/
def floatToString (q : ℚ) : String :=
  let k := q.den
  let m := q.num.natAbs * 10 ^ k / q.den
  let body := natToChars (m / 10 ^ k) ++ '.' :: padChars k m
  ⟨if q < 0 then '-' :: body else body⟩

/-! ## The record store (`FILE_PATH` CSV file) -/

/-- The header row `initialize_file` writes (p1.py line 16). -/
def headerRow : List String := ["date", "category", "amount", "description"]

/-- Model of `initialize_file` (p1.py lines 8–16): the store file is `none` when
absent; if absent, create it holding exactly the header row, otherwise
leave it untouched. -/
def initFile (fs : Option (List (List String))) : Option (List (List String)) :=
  match fs with
  | none => some [headerRow]
  | some c => some c

/-- Model of `csv.DictReader` field access `row[field]` under a header: the field's
positional index in the header, then that position of the row; `none`
models Python's `None` `restval` when the row is shorter than the header.
Trailing fields beyond the header are never reached (Python parks them
under the `None` restkey). -/
def dictReaderGet (header row : List String) (field : String) : Option String :=
  (header.findIdx? (fun h => h = field)).bind fun i => row.get? i

/-- The data rows `csv.DictReader` yields: every row after the header. -/
def read_all (file : List (List String)) : List (List String) := file.tail

/-- Model of `add_expense` (p1.py lines 19–39) on the store content: parse the
amount text with `float`; on `ValueError` abort before touching the file
(`false`); otherwise append one row `[date, category, str(amount),
description]` (`csv.writer` serialises the float via `str`). -/
def add_expense (file : List (List String)) (date category amountText descr : String) :
    List (List String) × Bool :=
  match parseFloat amountText with
  | none => (file, false)
  | some q => (file ++ [[date, category, floatToString q, descr]], true)

/-! ## Reading rows back: errors of the inlined read loops -/

/-- How a read loop dies on a malformed row: `float(None)` when the amount
field is missing (Python `TypeError`), `float("junk")` when it does not
parse (Python `ValueError`).  Neither is caught in `p1.py`, so the error
surfaces to the caller. -/
inductive ReadErr : Type
  | typeErr : ReadErr
  | valueErr : ReadErr
deriving DecidableEq

/-- Python dict update `d[k] = d.get(k, 0) + v`: in-place update keeps the
key's insertion position, a new key is appended at the end. -/
def dictIncr : List (String × ℚ) → String → ℚ → List (String × ℚ)
  | [], k, v => [(k, v)]
  | (k', v') :: rest, k, v =>
    if k' = k then (k', v' + v) :: rest else (k', v') :: dictIncr rest k v

/-- The read-and-aggregate loop of `analyze_expense` (p1.py lines 49–54) on
the raw file: for each data row take `row["category"]` and
`float(row["amount"])`, accumulating per-category totals; a missing or
unparsable amount raises, aborting the read.  Blank rows never reach the
loop body: `csv.DictReader.__next__` skips them (`while row == []: row =
next(self.reader)`), so an empty row contributes nothing and raises
nothing.  (`row["category"]` itself never raises; when the amount is
present under the standard header the category is present too, so the
`getD ""` default is unreachable there.) -/
def readAllTotals (file : List (List String)) : Except ReadErr (List (String × ℚ)) :=
  let header := (file.head?).getD []
  (read_all file).foldlM
    (fun acc row =>
      if row.isEmpty then Except.ok acc
      else
        match dictReaderGet header row "amount" with
        | none => Except.error ReadErr.typeErr
        | some s =>
          match parseFloat s with
          | none => Except.error ReadErr.valueErr
          | some q => Except.ok (dictIncr acc ((dictReaderGet header row "category").getD "") q))
    []

/-! ## The aggregator over in-memory records -/

/-- One expense record with its amount already numeric — the shape every
loop works with after `float(row["amount"])` has succeeded. -/
structure Expense : Type where
  date : String
  category : String
  amount : ℚ
  description : String
deriving DecidableEq

/-- The aggregation of `analyze_expense`/`category_pie_chart`: group by
exact category string, summing amounts, insertion-ordered. -/
def by_category (rs : List Expense) : List (String × ℚ) :=
  rs.foldl (fun d r => dictIncr d r.category r.amount) []

/-- The aggregation of `monthly_bar_chart` (p1.py lines 100–102): group by
`row["date"][:7]`, summing amounts, insertion-ordered. -/
def by_month (rs : List Expense) : List (String × ℚ) :=
  rs.foldl (fun d r => dictIncr d (r.date.take 7) r.amount) []

/-- Python `s.startswith(pre)`. -/
def pyStartsWith (s pre : String) : Bool := pre.data.isPrefixOf s.data

/-- The records a month selects: those whose date starts with the literal
month string (the `row["date"].startswith(month)` test). -/
def filterByMonth (rs : List Expense) (month : String) : List Expense :=
  rs.filter fun r => pyStartsWith r.date month

/-- The accumulation loop of `budget_alert` (p1.py lines 129–135):
`total_spent` starts at 0 and adds the amount of every row whose date
starts with the month string. -/
def total_spent (rs : List Expense) (month : String) : ℚ :=
  rs.foldl (fun t r => if pyStartsWith r.date month then t + r.amount else t) 0

/-! ## Budget check and report export -/

/-- One console line `budget_alert` prints after the budget has been read. -/
inductive OutEvent : Type
  | totalLine : String → ℚ → OutEvent
  | exceededLine : OutEvent
  | withinLine : OutEvent
deriving DecidableEq

/-- Model of `budget_alert` (p1.py lines 129–142) after month and numeric budget are
in hand: unconditionally print the month's total, then the verdict —
"exceeded" exactly when `total_spent > budget`, else "within".  There is no
empty-data branch in this function. -/
def budget_alert (rs : List Expense) (month : String) (budget : ℚ) : List OutEvent :=
  let t := total_spent rs month
  [OutEvent.totalLine month t,
   if budget < t then OutEvent.exceededLine else OutEvent.withinLine]

/-- The aggregation loop of `export_report` (p1.py lines 152–158): one pass
over the records, folding only those whose date starts with the month into
the per-category totals. -/
def export_aggregate (rs : List Expense) (month : String) : List (String × ℚ) :=
  rs.foldl (fun d r => if pyStartsWith r.date month then dictIncr d r.category r.amount else d) []

/-- Model of `export_report` (p1.py lines 160–171) after the aggregation: if the
mapping is empty, print the no-data notice and write nothing (`none`);
otherwise write `expense_report_<month>.txt` with the title line, the
35-character `"="` separator and one `<category>: ₹<total>` line per group
in mapping order. -/
def export_report (rs : List Expense) (month : String) : Option (String × List String) :=
  let ct := export_aggregate rs month
  if ct.isEmpty then none
  else
    some ("expense_report_" ++ month ++ ".txt",
      ("Expense Report for " ++ month) ::
        String.mk (List.replicate 35 '=') ::
          ct.map fun p => p.1 ++ ": ₹" ++ floatToString p.2)

/-! ## Digit-level lemmas -/

/-- Printing a digit then reading its value is the identity, for digits. -/
theorem charDigitVal_digitCharOf {d : ℕ} (hd : d < 10) :
    charDigitVal (digitCharOf d) = d := by
  interval_cases d <;> rfl

/-- Printing a digit yields a decimal digit character, for digits. -/
theorem isDigit_digitCharOf {d : ℕ} (hd : d < 10) :
    (digitCharOf d).isDigit = true := by
  interval_cases d <;> decide

/-- A digit character is not a sign character. -/
theorem isDigit_ne_sign {c : Char} (h : c.isDigit = true) : c ≠ '-' ∧ c ≠ '+' := by
  constructor <;> rintro rfl <;> simp [Char.isDigit] at h

/-- The sign parser leaves a digit-headed list alone. -/
theorem parseSign_digit_head {c : Char} (cs : List Char) (h : c.isDigit = true) :
    parseSign (c :: cs) = (false, c :: cs) := by
  obtain ⟨h1, h2⟩ := isDigit_ne_sign h
  simp [parseSign, h1, h2]

/-- A list has a non-digit head (or is empty): where `takeDigits` stops. -/
def headNotDigit : List Char → Prop
  | [] => True
  | c :: _ => c.isDigit = false

/-- The digit scanner consumes exactly a leading all-digit block, stopping at a
non-digit (or the end). -/
theorem takeDigits_append (l r : List Char) (hl : ∀ c ∈ l, c.isDigit = true)
    (hr : headNotDigit r) : takeDigits (l ++ r) = (l, r) := by
  induction l with
  | nil =>
    cases r with
    | nil => rfl
    | cons c cs =>
      simp only [headNotDigit] at hr
      simp [takeDigits, hr]
  | cons c cs ih =>
    have hc : c.isDigit = true := hl c (by simp)
    have ihr := ih fun x hx => hl x (by simp [hx])
    simp [takeDigits, hc, ihr]

/-! ## `charsVal` arithmetic -/

/-- Running `charsVal`'s fold from an arbitrary accumulator. -/
theorem charsVal_foldl_from (l : List Char) (a : ℕ) :
    l.foldl (fun a c => 10 * a + charDigitVal c) a =
      a * 10 ^ l.length + charsVal l := by
  induction l generalizing a with
  | nil => simp [charsVal]
  | cons c cs ih =>
    simp only [List.foldl_cons, charsVal, List.length_cons] at *
    rw [ih (10 * a + charDigitVal c), ih (10 * 0 + charDigitVal c)]
    ring

/-- The same, for folding raw digit values. -/
theorem digitsVal_foldl_from (l : List ℕ) (a : ℕ) :
    l.foldl (fun a d => 10 * a + d) a =
      a * 10 ^ l.length + l.foldl (fun a d => 10 * a + d) 0 := by
  induction l generalizing a with
  | nil => simp
  | cons d ds ih =>
    simp only [List.foldl_cons, List.length_cons]
    rw [ih (10 * a + d), ih (10 * 0 + d)]
    ring

/-- Big-endian concatenation: the left block is shifted by the length of
the right block. -/
theorem charsVal_append (l r : List Char) :
    charsVal (l ++ r) = charsVal l * 10 ^ r.length + charsVal r := by
  simp only [charsVal, List.foldl_append]
  rw [charsVal_foldl_from]
  rfl

/-- Folding digit values directly equals `charsVal` after `digitCharOf`. -/
theorem charsVal_map_digitCharOf (L : List ℕ) (hL : ∀ d ∈ L, d < 10) :
    charsVal (L.map digitCharOf) = L.foldl (fun a d => 10 * a + d) 0 := by
  induction L with
  | nil => rfl
  | cons d ds ih =>
    have hd : d < 10 := hL d (by simp)
    have ihds := ih fun x hx => hL x (by simp [hx])
    simp only [List.map_cons, charsVal, List.foldl_cons] at *
    rw [charsVal_foldl_from (ds.map digitCharOf), digitsVal_foldl_from ds,
      charDigitVal_digitCharOf hd]
    simp only [charsVal] at ihds ⊢
    rw [ihds, List.length_map]

/-- Big-endian folding of a digit list is `Nat.ofDigits` of its reverse. -/
theorem foldl_eq_ofDigits_reverse (L : List ℕ) :
    Nat.ofDigits 10 L = (L.reverse).foldl (fun a d => 10 * a + d) 0 := by
  induction L with
  | nil => rfl
  | cons d ds ih =>
    rw [Nat.ofDigits_cons, List.reverse_cons, List.foldl_append, ih,
      digitsVal_foldl_from ds.reverse]
    simp only [List.foldl_cons, List.foldl_nil, List.length_reverse]
    ring

/-- The decimal printer for naturals is inverted by `charsVal`. -/
theorem charsVal_natToChars (n : ℕ) : charsVal (natToChars n) = n := by
  by_cases hn : n = 0
  · subst hn; rfl
  · have hdig : ∀ d ∈ (Nat.digits 10 n).reverse, d < 10 := by
      intro d hd
      exact Nat.digits_lt_base (by norm_num) (List.mem_reverse.mp hd)
    rw [natToChars, if_neg hn, charsVal_map_digitCharOf _ hdig,
      ← foldl_eq_ofDigits_reverse (Nat.digits 10 n), Nat.ofDigits_digits]

/-- Every character the natural-number printer emits is a digit. -/
theorem natToChars_all_digit (n : ℕ) : ∀ c ∈ natToChars n, c.isDigit = true := by
  intro c hc
  by_cases hn : n = 0
  · subst hn; simp [natToChars] at hc; subst hc; decide
  · rw [natToChars, if_neg hn] at hc
    obtain ⟨d, hd, rfl⟩ := List.mem_map.mp hc
    exact isDigit_digitCharOf (Nat.digits_lt_base (by norm_num) (List.mem_reverse.mp hd))

/-- The natural-number printer never emits the empty string. -/
theorem natToChars_ne_nil (n : ℕ) : natToChars n ≠ [] := by
  by_cases hn : n = 0
  · subst hn; simp [natToChars]
  · rw [natToChars, if_neg hn]
    simp [Nat.digits_ne_nil_iff_ne_zero.mpr hn]

/-! ## `padChars` lemmas -/

/-- The padded fraction printer emits exactly `k` characters. -/
theorem padChars_length (k n : ℕ) : (padChars k n).length = k := by
  induction k generalizing n with
  | zero => rfl
  | succ k ih => simp [padChars, ih]

/-- Every character the padded printer emits is a digit. -/
theorem padChars_all_digit (k n : ℕ) : ∀ c ∈ padChars k n, c.isDigit = true := by
  induction k generalizing n with
  | zero => intro c hc; simp [padChars] at hc
  | succ k ih =>
    intro c hc
    simp only [padChars, List.mem_append, List.mem_singleton] at hc
    rcases hc with hc | rfl
    · exact ih (n / 10) c hc
    · exact isDigit_digitCharOf (Nat.mod_lt _ (by norm_num))

/-- Peeling one decimal digit off a modulus of `10^(k+1)`. -/
theorem mod_ten_pow_succ (k n : ℕ) :
    n % 10 ^ (k + 1) = n / 10 % 10 ^ k * 10 + n % 10 := by
  have hM : 0 < 10 ^ k := pow_pos (by norm_num) k
  have e1 : n / 10 * 10 % (10 ^ k * 10) = n / 10 % 10 ^ k * 10 :=
    Nat.mul_mod_mul_right 10 (n / 10) (10 ^ k)
  have h1 : n / 10 % 10 ^ k < 10 ^ k := Nat.mod_lt _ hM
  have h2 : n % 10 < 10 := Nat.mod_lt _ (by norm_num)
  have h10 : (10 : ℕ) ≤ 10 ^ k * 10 := by nlinarith
  have hlt : n / 10 % 10 ^ k * 10 + n % 10 < 10 ^ k * 10 := by omega
  have e2 : n % 10 % (10 ^ k * 10) = n % 10 := Nat.mod_eq_of_lt (by omega)
  have e0 : n = n / 10 * 10 + n % 10 := by omega
  rw [pow_succ]
  conv_lhs => rw [e0]
  rw [Nat.add_mod, e1, e2, Nat.mod_eq_of_lt hlt]

/-- The padded printer prints `n` modulo `10^k`. -/
theorem charsVal_padChars (k n : ℕ) : charsVal (padChars k n) = n % 10 ^ k := by
  induction k generalizing n with
  | zero => simp [padChars, charsVal, Nat.mod_one]
  | succ k ih =>
    rw [padChars, charsVal_append, ih]
    have hlt : n % 10 < 10 := Nat.mod_lt _ (by norm_num)
    have h1 : charsVal [digitCharOf (n % 10)] = n % 10 := by
      simp [charsVal, charDigitVal_digitCharOf hlt]
    rw [h1, mod_ten_pow_succ]
    simp

/-! ## Parsing the printed decimal back -/

/-- The sign parser passes over a printed numeral (its head is a digit). -/
theorem parseSign_natToChars (i : ℕ) (rest : List Char) :
    parseSign (natToChars i ++ rest) = (false, natToChars i ++ rest) := by
  cases h : natToChars i with
  | nil => exact absurd h (natToChars_ne_nil i)
  | cons c cs =>
    have hc : c.isDigit = true := natToChars_all_digit i c (by rw [h]; simp)
    rw [List.cons_append]
    exact parseSign_digit_head _ hc

/-- The printer's body parses to its components: whatever the sign flag
already consumed, the remaining `⟨integer digits⟩.⟨k fraction digits⟩`
yields the mantissa `i · 10^k + m mod 10^k` with `k` fraction digits and no
exponent. -/
theorem parseFloatAux_of_parseSign {l : List Char} {b : Bool} (i k m : ℕ)
    (h : parseSign l = (b, natToChars i ++ '.' :: padChars k m)) :
    parseFloatAux l = some (b, i * 10 ^ k + m % 10 ^ k, k, false, 0) := by
  have htake1 : takeDigits (natToChars i ++ '.' :: padChars k m) =
      (natToChars i, '.' :: padChars k m) :=
    takeDigits_append _ _ (natToChars_all_digit i) (by simp [headNotDigit])
  have htake2 : takeDigits (padChars k m) = (padChars k m, []) := by
    have h0 := takeDigits_append (padChars k m) [] (padChars_all_digit k m) trivial
    simpa using h0
  have hne : (natToChars i).isEmpty = false := by
    cases h0 : natToChars i with
    | nil => exact absurd h0 (natToChars_ne_nil i)
    | cons c cs => rfl
  simp only [parseFloatAux, h, htake1, htake2, hne, Bool.false_eq_true, false_and, if_false,
    if_pos rfl, if_true, parseAfterMant, charsVal_append, charsVal_natToChars, charsVal_padChars,
    padChars_length]

/-! ## Denominators of parsed floats -/

/-- A divisor of some power of ten divides the power of ten with its own
exponent: the prime exponents of such a `d` are below `d` itself. -/
theorem dvd_ten_pow_self {d m : ℕ} (hd : d ≠ 0) (h : d ∣ 10 ^ m) : d ∣ 10 ^ d := by
  have h10 : (10 : ℕ) ^ m ≠ 0 := pow_ne_zero _ (by norm_num)
  have h10d : (10 : ℕ) ^ d ≠ 0 := pow_ne_zero _ (by norm_num)
  rw [← Nat.factorization_le_iff_dvd hd h10d]
  have hle := (Nat.factorization_le_iff_dvd hd h10).mpr h
  intro p
  have hp := hle p
  rw [Nat.factorization_pow, Finsupp.smul_apply, smul_eq_mul] at hp ⊢
  rcases Nat.eq_zero_or_pos ((10 : ℕ).factorization p) with h0 | hpos
  · rw [h0] at hp ⊢
    simpa using hp
  · have hlt : d.factorization p < d := Nat.factorization_lt p hd
    nlinarith

/-- Every rational `parseFloat` can return is an integer over a power of
ten. -/
theorem assembleFloat_shape (neg : Bool) (d f : ℕ) (eneg : Bool) (e : ℕ) :
    ∃ (z : ℤ) (m : ℕ), assembleFloat neg d f eneg e = (z : ℚ) / 10 ^ m := by
  rcases eneg with _ | _ <;> rcases neg with _ | _
  · exact ⟨(d : ℤ) * 10 ^ e, f, by simp [assembleFloat]⟩
  · exact ⟨-((d : ℤ) * 10 ^ e), f, by simp [assembleFloat]; ring⟩
  · exact ⟨(d : ℤ), f + e, by simp [assembleFloat]⟩
  · exact ⟨-(d : ℤ), f + e, by simp [assembleFloat]; ring⟩

/-- The denominator of an integer over `10^m` divides `10^m`. -/
theorem den_dvd_of_div_pow_ten (z : ℤ) (m : ℕ) :
    (((z : ℚ) / 10 ^ m).den : ℕ) ∣ 10 ^ m := by
  have h := Rat.den_dvd z (10 ^ m)
  rw [Rat.divInt_eq_div] at h
  have hc : ((10 ^ m : ℤ) : ℚ) = (10 : ℚ) ^ m := by push_cast; ring
  rw [hc] at h
  exact_mod_cast h

/-! ## The float round-trip -/

/-- Every rational `parseFloat` returns is an integer over a power of ten. -/
theorem parseFloat_shape {s : String} {q : ℚ} (h : parseFloat s = some q) :
    ∃ (z : ℤ) (m : ℕ), q = (z : ℚ) / 10 ^ m := by
  rw [parseFloat] at h
  obtain ⟨t, _, hf⟩ := Option.map_eq_some'.mp h
  obtain ⟨z, m, hz⟩ := assembleFloat_shape t.1 t.2.1 t.2.2.1 t.2.2.2.1 t.2.2.2.2
  exact ⟨z, m, by rw [← hf, hz]⟩

theorem parseFloat_den_dvd {s : String} {q : ℚ} (h : parseFloat s = some q) :
    q.den ∣ 10 ^ q.den := by
  obtain ⟨z, m, rfl⟩ := parseFloat_shape h
  exact dvd_ten_pow_self (Rat.den_nz _) (den_dvd_of_div_pow_ten z m)

theorem parseFloat_floatToString {q : ℚ} (hden : q.den ∣ 10 ^ q.den) :
    parseFloat (floatToString q) = some q := by
  have hdnz : q.den ≠ 0 := q.den_nz
  have hd0 : (q.den : ℚ) ≠ 0 := Nat.cast_ne_zero.mpr hdnz
  have h10 : ((10 : ℚ) ^ q.den) ≠ 0 := pow_ne_zero _ (by norm_num)
  set k := q.den with hk
  set N := q.num.natAbs with hN
  set m := N * 10 ^ k / q.den with hm
  have hdvd : q.den ∣ N * 10 ^ k := Dvd.dvd.mul_left hden N
  have hexact : m * q.den = N * 10 ^ k := Nat.div_mul_cancel hdvd
  have habs : (N : ℚ) = |q| * (q.den : ℚ) := by
    have h1 : ((N : ℕ) : ℚ) = |(q.num : ℚ)| := by
      rw [hN]
      push_cast [Int.cast_natAbs]
      ring
    have h2 : |(q.num : ℚ)| = |q| * (q.den : ℚ) := by
      rw [← Rat.mul_den_eq_num q, abs_mul,
        abs_of_pos (show (0 : ℚ) < (q.den : ℚ) from Nat.cast_pos.mpr q.pos)]
    rw [h1, h2]
  have hmq : (m : ℚ) / 10 ^ k = |q| := by
    have hc : (m : ℚ) * (q.den : ℚ) = (N : ℚ) * 10 ^ k := by
      exact_mod_cast congrArg (fun x : ℕ => (x : ℚ)) hexact
    rw [div_eq_iff h10]
    have h3 : (m : ℚ) * (q.den : ℚ) = (|q| * 10 ^ k) * (q.den : ℚ) := by
      rw [hc, habs]; ring
    exact mul_right_cancel₀ hd0 h3
  have hdata : (floatToString q).data =
      if q < 0 then '-' :: (natToChars (m / 10 ^ k) ++ '.' :: padChars k m)
      else natToChars (m / 10 ^ k) ++ '.' :: padChars k m := rfl
  have hD : m / 10 ^ k * 10 ^ k + m % 10 ^ k = m := by
    rw [Nat.mul_comm (m / 10 ^ k) (10 ^ k)]
    exact Nat.div_add_mod m (10 ^ k)
  rcases lt_or_le q 0 with hq | hq
  · have hsign : parseSign ((floatToString q).data) =
        (true, natToChars (m / 10 ^ k) ++ '.' :: padChars k m) := by
      rw [hdata, if_pos hq]
      simp [parseSign]
    have haux := parseFloatAux_of_parseSign (m / 10 ^ k) k m hsign
    rw [parseFloat, haux]
    simp only [Option.map_some']
    congr 1
    rw [hD]
    have hval : assembleFloat true m k false 0 = -((m : ℚ) / 10 ^ k) := by
      simp [assembleFloat]
    rw [hval, hmq, abs_of_neg hq, neg_neg]
  · have hsign : parseSign ((floatToString q).data) =
        (false, natToChars (m / 10 ^ k) ++ '.' :: padChars k m) := by
      rw [hdata, if_neg (not_lt.mpr hq)]
      exact parseSign_natToChars _ _
    have haux := parseFloatAux_of_parseSign (m / 10 ^ k) k m hsign
    rw [parseFloat, haux]
    simp only [Option.map_some']
    congr 1
    rw [hD]
    have hval : assembleFloat false m k false 0 = (m : ℚ) / 10 ^ k := by
      simp [assembleFloat]
    rw [hval, hmq, abs_of_nonneg hq]

/-- Python's `float(str(x)) == x` for the model: a value obtained from
`float` on any text prints, via `str`, to a string `float` parses back to
the same value. -/
theorem parseFloat_roundTrip {s : String} {q : ℚ} (h : parseFloat s = some q) :
    parseFloat (floatToString q) = some q :=
  parseFloat_floatToString (parseFloat_den_dvd h)

/-! ## Aggregation lemmas -/

/-- Sum of the totals of a category mapping. -/
def sumVals (d : List (String × ℚ)) : ℚ := (d.map Prod.snd).sum

/-- One dict increment raises the sum of totals by exactly the amount. -/
theorem sumVals_dictIncr (d : List (String × ℚ)) (k : String) (v : ℚ) :
    sumVals (dictIncr d k v) = sumVals d + v := by
  induction d with
  | nil => simp [dictIncr, sumVals]
  | cons p rest ih =>
    obtain ⟨k', v'⟩ := p
    by_cases hk : k' = k
    · simp [dictIncr, hk, sumVals]
      ring
    · simp [dictIncr, hk, sumVals] at ih ⊢
      rw [ih]
      ring

/-- A dict increment never empties a mapping. -/
theorem dictIncr_ne_nil (d : List (String × ℚ)) (k : String) (v : ℚ) :
    dictIncr d k v ≠ [] := by
  cases d with
  | nil => simp [dictIncr]
  | cons p rest =>
    obtain ⟨k', v'⟩ := p
    by_cases hk : k' = k <;> simp [dictIncr, hk]

/-- Folding category increments over records, from any starting mapping,
adds exactly the records' amounts to the sum of totals. -/
theorem sumVals_foldl_dictIncr (rs : List Expense) (d : List (String × ℚ)) :
    sumVals (rs.foldl (fun d r => dictIncr d r.category r.amount) d) =
      sumVals d + (rs.map Expense.amount).sum := by
  induction rs generalizing d with
  | nil => simp
  | cons r rest ih =>
    simp only [List.foldl_cons, List.map_cons, List.sum_cons]
    rw [ih, sumVals_dictIncr]
    ring

/-- Folding category increments preserves non-emptiness of the mapping. -/
theorem foldl_dictIncr_ne_nil (rs : List Expense) (d : List (String × ℚ)) (hd : d ≠ []) :
    rs.foldl (fun d r => dictIncr d r.category r.amount) d ≠ [] := by
  induction rs generalizing d with
  | nil => simpa
  | cons r rest ih => exact ih _ (dictIncr_ne_nil _ _ _)

/-- The one-pass filtered fold of `export_report` equals aggregating the
filtered records. -/
theorem export_aggregate_eq (rs : List Expense) (month : String) :
    export_aggregate rs month = by_category (filterByMonth rs month) := by
  rw [export_aggregate, by_category, filterByMonth]
  generalize ([] : List (String × ℚ)) = d
  induction rs generalizing d with
  | nil => simp
  | cons r rest ih =>
    by_cases hr : pyStartsWith r.date month <;>
      simp [List.filter_cons, hr, ih]

/-- Running the budget total's fold from an arbitrary accumulator. -/
theorem total_spent_foldl_from (rs : List Expense) (month : String) (a : ℚ) :
    rs.foldl (fun t r => if pyStartsWith r.date month then t + r.amount else t) a =
      a + ((rs.filter fun r => pyStartsWith r.date month).map Expense.amount).sum := by
  induction rs generalizing a with
  | nil => simp
  | cons r rest ih =>
    by_cases hr : pyStartsWith r.date month <;>
      simp [List.filter_cons, hr, ih] <;> ring

/-- The running total of `budget_alert` equals the sum of the amounts of
the month's records. -/
theorem total_spent_eq (rs : List Expense) (month : String) :
    total_spent rs month = ((filterByMonth rs month).map Expense.amount).sum := by
  rw [total_spent, filterByMonth, total_spent_foldl_from]
  simp

/-! ## Month filtering facts -/

/-- Every string starts with the empty prefix (Python
`s.startswith("") == True`). -/
theorem pyStartsWith_empty (s : String) : pyStartsWith s "" = true := by
  have h : "".data = [] := rfl
  rw [pyStartsWith, h]
  exact List.isPrefixOf_nil_left

/-- C1: the budget check reports "over budget" exactly when the
month-filtered total strictly exceeds the budget threshold; a total equal
to the budget reports "within budget", and one unit over reports
exceeded. -/
theorem C1_budget_boundary (rs : List Expense) (month : String) (budget : ℚ) :
    (OutEvent.exceededLine ∈ budget_alert rs month budget ↔ budget < total_spent rs month)
    ∧ (total_spent rs month = budget →
        budget_alert rs month budget = [OutEvent.totalLine month budget, OutEvent.withinLine])
    ∧ (total_spent rs month = budget + 1 →
        budget_alert rs month budget =
          [OutEvent.totalLine month (budget + 1), OutEvent.exceededLine]) := by
  refine ⟨?_, ?_, ?_⟩
  · rw [budget_alert]
    by_cases h : budget < total_spent rs month <;> simp [h]
  · intro h
    simp [budget_alert, h]
  · intro h
    simp [budget_alert, h, lt_add_one budget]

/-- Witness for C1 at a concrete store, month and budget. -/
theorem C1_witness :
    budget_alert [⟨"2024-01-05", "Food", 100, "l"⟩] "2024-01" 100 =
      [OutEvent.totalLine "2024-01" 100, OutEvent.withinLine]
    ∧ budget_alert [⟨"2024-01-05", "Food", 100, "l"⟩] "2024-01" 99 =
      [OutEvent.totalLine "2024-01" 100, OutEvent.exceededLine] := by
  have h1 := (C1_budget_boundary [⟨"2024-01-05", "Food", 100, "l"⟩] "2024-01" 100).2.1
    (by simp +decide [total_spent, pyStartsWith])
  have h2 := (C1_budget_boundary [⟨"2024-01-05", "Food", 100, "l"⟩] "2024-01" 99).2.2
    (by simp +decide [total_spent, pyStartsWith]; norm_num)
  refine ⟨h1, ?_⟩
  rw [h2]
  norm_num

/-- Counterexample to C4: a month matching no record still makes
`budget_alert` print a total line (of 0) and a verdict — it does not
short-circuit on "no data". -/
theorem C4_cex : filterByMonth [⟨"2024-01-05", "Food", 100, "l"⟩] "2025-02" = [] ∧
    budget_alert [⟨"2024-01-05", "Food", 100, "l"⟩] "2025-02" 100 =
      [OutEvent.totalLine "2025-02" 0, OutEvent.withinLine] := by
  constructor
  · simp +decide [filterByMonth, pyStartsWith]
  · simp +decide [budget_alert, total_spent, pyStartsWith]

/-- C4 as amended: on a month whose filter matches no record, the budget
check does not short-circuit; it prints a total of 0 and still a verdict
(exceeded exactly when the budget is negative). -/
theorem C4_amended (rs : List Expense) (month : String) (b : ℚ)
    (h : filterByMonth rs month = []) :
    budget_alert rs month b =
      [OutEvent.totalLine month 0,
        if b < 0 then OutEvent.exceededLine else OutEvent.withinLine] := by
  have ht : total_spent rs month = 0 := by rw [total_spent_eq, h]; simp
  simp [budget_alert, ht]

/-- Witness for the amended C4 at a concrete store and month. -/
theorem C4_amended_witness :
    filterByMonth [⟨"2024-01-05", "Food", 100, "l"⟩] "2025-02" = [] ∧
    budget_alert [⟨"2024-01-05", "Food", 100, "l"⟩] "2025-02" 50 =
      [OutEvent.totalLine "2025-02" 0, OutEvent.withinLine] := by
  have he : filterByMonth [(⟨"2024-01-05", "Food", 100, "l"⟩ : Expense)] "2025-02" = [] := by
    simp +decide [filterByMonth, pyStartsWith]
  refine ⟨he, ?_⟩
  have h := C4_amended [⟨"2024-01-05", "Food", 100, "l"⟩] "2025-02" 50 he
  rw [h]
  norm_num

/-- C10: with the empty month string every record matches the prefix
filter, so the budget total sums all records and the export aggregates all
records. -/
theorem C10_empty_month (rs : List Expense) :
    filterByMonth rs "" = rs
    ∧ total_spent rs "" = (rs.map Expense.amount).sum
    ∧ export_aggregate rs "" = by_category rs := by
  have hf : filterByMonth rs "" = rs := by
    simp [filterByMonth, pyStartsWith_empty]
  refine ⟨hf, ?_, ?_⟩
  · rw [total_spent_eq, hf]
  · rw [export_aggregate_eq, hf]

/-- C3: for every non-empty record list, the per-category totals of
`by_category` sum to the grand total of all amounts (exactly, in the
rational model). -/
theorem C3_grand_total (rs : List Expense) (_h : rs ≠ []) :
    sumVals (by_category rs) = (rs.map Expense.amount).sum := by
  rw [by_category, sumVals_foldl_dictIncr]
  simp [sumVals]

/-- Witness for C3 on the spec's three-record scenario. -/
theorem C3_witness :
    ([⟨"2024-01-05", "Food", 100, "lunch"⟩, ⟨"2024-01-06", "Food", 50, "snack"⟩,
        ⟨"2024-01-07", "Travel", 200, "taxi"⟩] : List Expense) ≠ []
    ∧ sumVals (by_category [⟨"2024-01-05", "Food", 100, "lunch"⟩,
        ⟨"2024-01-06", "Food", 50, "snack"⟩, ⟨"2024-01-07", "Travel", 200, "taxi"⟩]) =
      (([⟨"2024-01-05", "Food", 100, "lunch"⟩, ⟨"2024-01-06", "Food", 50, "snack"⟩,
        ⟨"2024-01-07", "Travel", 200, "taxi"⟩] : List Expense).map Expense.amount).sum :=
  ⟨by simp, C3_grand_total _ (by simp)⟩

/-- C8: the spec's concrete scenario: `by_category` yields
`{"Food": 150, "Travel": 200}` and `by_month` yields `{"2024-01": 350}`,
in insertion order of first appearance. -/
theorem C8_scenario :
    by_category [⟨"2024-01-05", "Food", 100, "lunch"⟩, ⟨"2024-01-06", "Food", 50, "snack"⟩,
        ⟨"2024-01-07", "Travel", 200, "taxi"⟩] = [("Food", 150), ("Travel", 200)]
    ∧ by_month [⟨"2024-01-05", "Food", 100, "lunch"⟩, ⟨"2024-01-06", "Food", 50, "snack"⟩,
        ⟨"2024-01-07", "Travel", 200, "taxi"⟩] = [("2024-01", 350)] := by
  constructor
  · simp +decide [by_category, dictIncr]
    norm_num
  · simp +decide [by_month, dictIncr]
    norm_num

/-! ## Store-level claims -/

/-- C6: atomicity of add — when the amount text fails `float` conversion,
`add_expense` aborts (user-visible error, `false`) and the store file
content is unchanged. -/
theorem C6_add_atomic (file : List (List String)) (date category amountText descr : String)
    (h : parseFloat amountText = none) :
    add_expense file date category amountText descr = (file, false) := by
  rw [add_expense, h]

/-- Witness for C6: the non-numeric amount `"abc"` appends nothing. -/
theorem C6_witness :
    parseFloat "abc" = none
    ∧ add_expense [headerRow] "2024-01-05" "Food" "abc" "lunch" = ([headerRow], false) :=
  ⟨by decide, C6_add_atomic [headerRow] "2024-01-05" "Food" "abc" "lunch" (by decide)⟩

/-- C7: `initialize_file` is idempotent — a no-op on an existing file, so
a well-formed file keeps exactly one header line and all its data rows;
from an absent file it creates exactly the four-column header. -/
theorem C7_init_idempotent :
    (∀ c, initFile (some c) = some c)
    ∧ (∀ fs, initFile (initFile fs) = initFile fs)
    ∧ initFile none = some [headerRow]
    ∧ (∀ rows, initFile (initFile (some (headerRow :: rows))) = some (headerRow :: rows))
    ∧ initFile (initFile none) = some [headerRow] := by
  refine ⟨fun c => rfl, fun fs => ?_, rfl, fun rows => rfl, rfl⟩
  cases fs <;> rfl

/-- C9: export writes no file and signals "no data" on a month with an
empty filtered record set; on a non-empty mapping it writes
`expense_report_<month>.txt` with a title line, a 35-character separator
and one category line per group. -/
theorem C9_export (rs : List Expense) (month : String) :
    (filterByMonth rs month = [] → export_report rs month = none)
    ∧ (filterByMonth rs month ≠ [] →
        export_report rs month =
          some ("expense_report_" ++ month ++ ".txt",
            ("Expense Report for " ++ month) ::
              String.mk (List.replicate 35 '=') ::
                (export_aggregate rs month).map (fun p => p.1 ++ ": ₹" ++ floatToString p.2))
        ∧ (String.mk (List.replicate 35 '=')).length = 35
        ∧ ((export_aggregate rs month).map
              (fun p => p.1 ++ ": ₹" ++ floatToString p.2)).length =
            (export_aggregate rs month).length) := by
  constructor
  · intro h
    have hagg : export_aggregate rs month = [] := by
      rw [export_aggregate_eq, h]
      rfl
    simp [export_report, hagg]
  · intro h
    have hagg : export_aggregate rs month ≠ [] := by
      rw [export_aggregate_eq]
      cases hf : filterByMonth rs month with
      | nil => exact absurd hf h
      | cons r rest =>
        rw [by_category]
        simp only [List.foldl_cons]
        exact foldl_dictIncr_ne_nil rest _ (dictIncr_ne_nil [] _ _)
    refine ⟨?_, ?_, by rw [List.length_map]⟩
    · rw [export_report]
      simp [List.isEmpty_iff, hagg]
    · simp [String.length]

/-- Witness for C9 on a concrete store: an unmatched month exports
nothing, a matched month exports the full report. -/
theorem C9_witness :
    (filterByMonth [(⟨"2024-01-05", "Food", 100, "l"⟩ : Expense)] "2025-02" = []
      ∧ export_report [(⟨"2024-01-05", "Food", 100, "l"⟩ : Expense)] "2025-02" = none)
    ∧ (filterByMonth [(⟨"2024-01-05", "Food", 100, "l"⟩ : Expense)] "2024-01" ≠ []
      ∧ export_report [(⟨"2024-01-05", "Food", 100, "l"⟩ : Expense)] "2024-01" =
          some ("expense_report_2024-01.txt",
            ["Expense Report for 2024-01",
              String.mk (List.replicate 35 '='), "Food: ₹" ++ floatToString 100])) := by
  have h1 : filterByMonth [(⟨"2024-01-05", "Food", 100, "l"⟩ : Expense)] "2025-02" = [] := by
    simp +decide [filterByMonth, pyStartsWith]
  have h2 : filterByMonth [(⟨"2024-01-05", "Food", 100, "l"⟩ : Expense)] "2024-01" ≠ [] := by
    simp +decide [filterByMonth, pyStartsWith]
  refine ⟨⟨h1, (C9_export _ _).1 h1⟩, h2, ?_⟩
  have h3 := ((C9_export [(⟨"2024-01-05", "Food", 100, "l"⟩ : Expense)] "2024-01").2 h2).1
  rw [h3]
  have hagg : export_aggregate [(⟨"2024-01-05", "Food", 100, "l"⟩ : Expense)] "2024-01" =
      [("Food", 100)] := by
    simp +decide [export_aggregate, pyStartsWith, dictIncr]
  rw [hagg]
  rfl

/-- C2: round-trip — appending a record with a numeric amount and reading
all records back yields a record whose date, category and description
match textually and whose amount matches numerically (`float` of the
stored text is the appended value). -/
theorem C2_round_trip (rows : List (List String)) (d c a desc : String) (q : ℚ)
    (h : parseFloat a = some q) :
    ∃ row ∈ read_all ((add_expense (headerRow :: rows) d c a desc).1),
      dictReaderGet headerRow row "date" = some d
      ∧ dictReaderGet headerRow row "category" = some c
      ∧ (dictReaderGet headerRow row "amount").bind parseFloat = some q
      ∧ dictReaderGet headerRow row "description" = some desc := by
  refine ⟨[d, c, floatToString q, desc], ?_, ?_, ?_, ?_, ?_⟩
  · rw [add_expense, h]
    simp [read_all]
  · rfl
  · rfl
  · show (some (floatToString q)).bind parseFloat = some q
    simp [parseFloat_roundTrip h]
  · rfl

/-- Witness for C2 with the record `("2024-01-05", "Food", 100, "lunch")`. -/
theorem C2_witness :
    parseFloat "100" = some 100
    ∧ ∃ row ∈ read_all ((add_expense (headerRow :: []) "2024-01-05" "Food" "100" "lunch").1),
        dictReaderGet headerRow row "date" = some "2024-01-05"
        ∧ dictReaderGet headerRow row "category" = some "Food"
        ∧ (dictReaderGet headerRow row "amount").bind parseFloat = some 100
        ∧ dictReaderGet headerRow row "description" = some "lunch" := by
  have hp : parseFloat "100" = some 100 := by
    simp +decide [parseFloat, parseFloatAux, parseSign, takeDigits, parseAfterMant,
      charsVal, charDigitVal, assembleFloat]
  exact ⟨hp, C2_round_trip [] "2024-01-05" "Food" "100" "lunch" 100 hp⟩

/-- Counterexample to C5: a data row with three fields — fewer than the
four the header requires — is processed without any error (`DictReader`
fills the missing description with `None`, which the loop never reads). -/
theorem C5_cex :
    (["2024-01-05", "Food", "100"] : List String).length < headerRow.length
    ∧ readAllTotals [headerRow, ["2024-01-05", "Food", "100"]] = Except.ok [("Food", 100)] := by
  constructor
  · decide
  · simp +decide [readAllTotals, read_all, headerRow, dictReaderGet, dictIncr, List.foldlM,
      parseFloat, parseFloatAux, parseSign, takeDigits, parseAfterMant, charsVal,
      charDigitVal, assembleFloat]

/-- C5 as amended: blank rows are skipped by `DictReader` and never fail;
a non-blank short row fails only when the missing field is one the loop
evaluates — a row without an amount field dies with the uncaught
`TypeError` of `float(None)`, an unparsable amount with `ValueError`, and
both surface to the caller; a short row that still has its amount is
processed, and extra trailing fields are ignored. -/
theorem C5_amended :
    (∀ row : List String, row ≠ [] → row.length ≤ 2 →
        readAllTotals [headerRow, row] = Except.error ReadErr.typeErr)
    ∧ (∀ rest : List (List String),
        readAllTotals (headerRow :: [] :: rest) = readAllTotals (headerRow :: rest))
    ∧ (∀ (d c a : String) (rest : List String) (q : ℚ), parseFloat a = some q →
        readAllTotals [headerRow, d :: c :: a :: rest] = Except.ok [(c, q)])
    ∧ (∀ d c a : String, parseFloat a = none →
        readAllTotals [headerRow, [d, c, a]] = Except.error ReadErr.valueErr) := by
  refine ⟨?_, ?_, ?_, ?_⟩
  · intro row hne hrow
    have hemp : row.isEmpty = false := by
      cases row with
      | nil => exact absurd rfl hne
      | cons x xs => rfl
    have hz : dictReaderGet headerRow row "amount" = row.get? 2 := rfl
    have hnone : row[2]? = none := List.getElem?_eq_none hrow
    simp [readAllTotals, read_all, List.foldlM, hemp, hz, hnone]
  · intro rest
    simp only [readAllTotals, read_all, List.foldlM, List.isEmpty_nil, if_true]
    rfl
  · intro d c a rest q h
    have hz : dictReaderGet headerRow (d :: c :: a :: rest) "amount" = some a := rfl
    have hc : dictReaderGet headerRow (d :: c :: a :: rest) "category" = some c := rfl
    simp [readAllTotals, read_all, List.foldlM, hz, hc, h, dictIncr]
  · intro d c a h
    have hz : dictReaderGet headerRow [d, c, a] "amount" = some a := rfl
    simp [readAllTotals, read_all, List.foldlM, hz, h]

/-- Witness for the amended C5: a one-field row dies with `TypeError`, a
blank row is skipped (the file still reads to the same result), a
five-field row is processed (extras ignored), `"abc"` dies with
`ValueError`. -/
theorem C5_amended_witness :
    ((["2024-01-05"] : List String) ≠ [] ∧ (["2024-01-05"] : List String).length ≤ 2
      ∧ readAllTotals [headerRow, ["2024-01-05"]] = Except.error ReadErr.typeErr)
    ∧ readAllTotals [headerRow, [], ["2024-01-05", "Food", "100", "lunch"]] =
        readAllTotals [headerRow, ["2024-01-05", "Food", "100", "lunch"]]
    ∧ (parseFloat "100" = some 100
      ∧ readAllTotals [headerRow, ["2024-01-05", "Food", "100", "lunch", "extra"]] =
          Except.ok [("Food", 100)])
    ∧ (parseFloat "abc" = none
      ∧ readAllTotals [headerRow, ["2024-01-05", "Food", "abc"]] =
          Except.error ReadErr.valueErr) := by
  have hp : parseFloat "100" = some 100 := by
    simp +decide [parseFloat, parseFloatAux, parseSign, takeDigits, parseAfterMant,
      charsVal, charDigitVal, assembleFloat]
  refine ⟨⟨by decide, by decide, C5_amended.1 ["2024-01-05"] (by decide) (by decide)⟩,
    C5_amended.2.1 [["2024-01-05", "Food", "100", "lunch"]],
    ⟨hp, C5_amended.2.2.1 "2024-01-05" "Food" "100" ["lunch", "extra"] 100 hp⟩,
    ⟨by decide, C5_amended.2.2.2 "2024-01-05" "Food" "abc" (by decide)⟩⟩
